import Mathlib

/-!
Verification of `blockchain.py` / `server.py` (a minimal HTTP blockchain node).

The Python code is shallowly embedded below:
* `hashlib.sha256(...).hexdigest()` is embedded as an executable SHA-256
  (FIPS 180-4) over `Nat` machine words with explicit masking to 32 bits;
* the `Blockchain` class becomes a state record `Blockchain.BState` and its
  methods become pure functions on that record (the wall clock `time()` and
  the HTTP responses fetched in `resolve_conflicts` are passed in as explicit
  arguments);
* Python exceptions (`IndexError` on `chain[-1]` / `chain[0]`, and the
  uncaught `requests` / JSON exceptions inside `resolve_conflicts`) are
  embedded as `Option` / `Except` results.
-/

namespace Blockchain

/-! ## SHA-256 over `Nat` (FIPS 180-4)

A byte is a `Nat` below 256; a word is a `Nat` below `2 ^ 32`, kept in range
by explicit masking. -/

/-- Mask a natural number down to its low 32 bits. -/
def mask32 (x : Nat) : Nat := x &&& 0xffffffff

/-- 32-bit right rotation by `n` places. -/
def rotr32 (n x : Nat) : Nat := mask32 ((x >>> n) ||| (x <<< (32 - n)))

/-- 32-bit addition (modulo `2 ^ 32`). -/
def add32 (a b : Nat) : Nat := mask32 (a + b)

/-- Small sigma-0 of the SHA-256 message schedule. -/
def shaS0 (x : Nat) : Nat := (rotr32 7 x) ^^^ (rotr32 18 x) ^^^ (x >>> 3)

/-- Small sigma-1 of the SHA-256 message schedule. -/
def shaS1 (x : Nat) : Nat := (rotr32 17 x) ^^^ (rotr32 19 x) ^^^ (x >>> 10)

/-- Big Sigma-0 of the SHA-256 compression function. -/
def shaBS0 (x : Nat) : Nat := (rotr32 2 x) ^^^ (rotr32 13 x) ^^^ (rotr32 22 x)

/-- Big Sigma-1 of the SHA-256 compression function. -/
def shaBS1 (x : Nat) : Nat := (rotr32 6 x) ^^^ (rotr32 11 x) ^^^ (rotr32 25 x)

/-- The SHA-256 choice function `Ch(x, y, z)`. -/
def shaCh (x y z : Nat) : Nat := (x &&& y) ^^^ ((x ^^^ 0xffffffff) &&& z)

/-- The SHA-256 majority function `Maj(x, y, z)`. -/
def shaMaj (x y z : Nat) : Nat := (x &&& y) ^^^ (x &&& z) ^^^ (y &&& z)

/-- The 64 SHA-256 round constants (FIPS 180-4 section 4.2.2, here written
in decimal). -/
def shaK : List Nat := [
  1116352408, 1899447441, 3049323471, 3921009573, 961987163, 1508970993,
  2453635748, 2870763221, 3624381080, 310598401, 607225278, 1426881987,
  1925078388, 2162078206, 2614888103, 3248222580, 3835390401, 4022224774,
  264347078, 604807628, 770255983, 1249150122, 1555081692, 1996064986,
  2554220882, 2821834349, 2952996808, 3210313671, 3336571891, 3584528711,
  113926993, 338241895, 666307205, 773529912, 1294757372, 1396182291,
  1695183700, 1986661051, 2177026350, 2456956037, 2730485921, 2820302411,
  3259730800, 3345764771, 3516065817, 3600352804, 4094571909, 275423344,
  430227734, 506948616, 659060556, 883997877, 958139571, 1322822218,
  1537002063, 1747873779, 1955562222, 2024104815, 2227730452, 2361852424,
  2428436474, 2756734187, 3204031479, 3329325298
]

/-- The SHA-256 initial hash value (FIPS 180-4 section 5.3.3, in decimal). -/
def shaH0 : List Nat := [
  1779033703, 3144134277, 1013904242, 2773480762, 1359893119, 2600822924,
  528734635, 1541459225
]

/-- Big-endian byte decomposition of `v` into `n` bytes. -/
def bytesBE (n v : Nat) : List Nat :=
  (List.range n).map (fun i => (v >>> (8 * (n - 1 - i))) &&& 0xff)

/-- SHA-256 padding: append `0x80`, zeros up to 56 mod 64 bytes, then the
bit length as 8 big-endian bytes. -/
def shaPad (m : List Nat) : List Nat :=
  m ++ [0x80] ++ List.replicate ((55 + 64 - m.length % 64) % 64) 0 ++ bytesBE 8 (8 * m.length)

/-- Group a byte list into big-endian 32-bit words. -/
def toWords : List Nat → List Nat
  | a :: b :: c :: d :: rest => ((((a <<< 8) ||| b) <<< 8 ||| c) <<< 8 ||| d) :: toWords rest
  | _ => []

/-- Extend a 16-word message block by `n` further schedule words. -/
def extendW : Nat → List Nat → List Nat
  | 0, w => w
  | n + 1, w =>
      let i := w.length
      extendW n (w ++ [add32 (add32 (shaS1 (w.getD (i - 2) 0)) (w.getD (i - 7) 0))
                         (add32 (shaS0 (w.getD (i - 15) 0)) (w.getD (i - 16) 0))])

/-- One SHA-256 round on the working variables `(a, b, c, d, e, f, g, h)`;
`kw` is the pair of the round constant and the schedule word. -/
def shaRound (st : Nat × Nat × Nat × Nat × Nat × Nat × Nat × Nat) (kw : Nat × Nat) :
    Nat × Nat × Nat × Nat × Nat × Nat × Nat × Nat :=
  match st with
  | (a, b, c, d, e, f, g, h) =>
    let t1 := add32 h (add32 (shaBS1 e) (add32 (shaCh e f g) (add32 kw.1 kw.2)))
    let t2 := add32 (shaBS0 a) (shaMaj a b c)
    (add32 t1 t2, a, b, c, add32 d t1, e, f, g)

/-- Compress one 16-word block into the running 8-word hash state. -/
def shaCompress (H : List Nat) (block : List Nat) : List Nat :=
  let w := extendW 48 block
  match (shaK.zip w).foldl shaRound
      (H.getD 0 0, H.getD 1 0, H.getD 2 0, H.getD 3 0,
       H.getD 4 0, H.getD 5 0, H.getD 6 0, H.getD 7 0) with
  | (a, b, c, d, e, f, g, h) =>
    [add32 (H.getD 0 0) a, add32 (H.getD 1 0) b, add32 (H.getD 2 0) c, add32 (H.getD 3 0) d,
     add32 (H.getD 4 0) e, add32 (H.getD 5 0) f, add32 (H.getD 6 0) g, add32 (H.getD 7 0) h]

/-- Split a word list into 16-word blocks; the fuel is an upper bound on the
number of blocks, so `ws.length` always suffices. -/
def blocksOf : Nat → List Nat → List (List Nat)
  | 0, _ => []
  | _, [] => []
  | fuel + 1, ws => ws.take 16 :: blocksOf fuel (ws.drop 16)

/-- SHA-256 of a byte list, as the list of the 8 words of the digest. -/
def sha256words (m : List Nat) : List Nat :=
  let ws := toWords (shaPad m)
  (blocksOf ws.length ws).foldl shaCompress shaH0

/-- Lowercase hexadecimal rendering of one 32-bit word (8 hex digits). -/
def wordHex (w : Nat) : List Char :=
  (List.range 8).map (fun i => Nat.digitChar ((w >>> (4 * (7 - i))) &&& 0xf))

/-- Embedding of `hashlib.sha256(m).hexdigest()`: the 64-character lowercase
hexadecimal digest of the byte list `m`. -/
def sha256hex (m : List Nat) : String :=
  String.mk ((sha256words m).foldr (fun w acc => wordHex w ++ acc) [])

/-- Embedding of `str.encode()` for the ASCII strings this program hashes
(UTF-8 agrees with the code point on ASCII). -/
def strBytes (s : String) : List Nat := s.data.map Char.toNat

/-! ## Data model

A block is the dict built in `Blockchain.new_block`.  Its `previous_hash`
field is dynamically typed in Python: the genesis block stores the integer
`1` while every other block stores a hex digest string, so it is embedded as
a sum type.  `timestamp` (Python `time()`) and the transaction `amount` are
embedded as integers: they are opaque payload for every property below, and
integers are representable in the JSON that peers feed to `valid_chain`. -/

/-- The dynamically typed `previous_hash` field: an integer or a string. -/
inductive PrevHash where
  | int (n : Int)
  | str (s : String)
deriving DecidableEq, BEq, Repr

/-- The dict appended by `Blockchain.new_transaction`. -/
structure Transaction where
  sender : String
  recipient : String
  amount : Int
deriving DecidableEq, BEq, Repr

/-- The dict built by `Blockchain.new_block`. -/
structure Block where
  index : Int
  timestamp : Int
  transactions : List Transaction
  proof : Int
  previous_hash : PrevHash
deriving DecidableEq, BEq, Repr

/-! ## `json.dumps(block, sort_keys=True)`

`Blockchain.hash` serialises the block with sorted keys and the default
separators `", "` and `": "`, then hashes the UTF-8 bytes.  The JSON string
escaping below covers strings without control characters, quotes or
backslashes being escaped as in Python; all strings this development hashes
are plain ASCII. -/

/-- JSON string escaping for quote and backslash (the only escapes needed for
the ASCII payloads in this development). -/
def jsonEscapeChar (c : Char) : List Char :=
  if c = '"' then ['\\', '"']
  else if c = '\\' then ['\\', '\\']
  else [c]

/-- A JSON string literal: quoted and escaped. -/
def jsonStr (s : String) : String :=
  "\"" ++ String.mk (s.data.foldr (fun c acc => jsonEscapeChar c ++ acc) []) ++ "\""

/-- JSON rendering of a `previous_hash` value. -/
def jsonPrev : PrevHash → String
  | .int n => Int.repr n
  | .str s => jsonStr s

/-- JSON rendering of one transaction dict; `sort_keys=True` orders the keys
`amount`, `recipient`, `sender`. -/
def jsonTx (t : Transaction) : String :=
  "\x7b\"amount\": " ++ Int.repr t.amount ++ ", \"recipient\": " ++ jsonStr t.recipient ++
    ", \"sender\": " ++ jsonStr t.sender ++ "\x7d"

/-- JSON rendering of the transaction list. -/
def jsonTxList (ts : List Transaction) : String :=
  "[" ++ String.intercalate ", " (ts.map jsonTx) ++ "]"

/-- JSON rendering of a block dict; `sort_keys=True` orders the keys
`index`, `previous_hash`, `proof`, `timestamp`, `transactions`. -/
def jsonBlock (b : Block) : String :=
  "\x7b\"index\": " ++ Int.repr b.index ++ ", \"previous_hash\": " ++ jsonPrev b.previous_hash ++
    ", \"proof\": " ++ Int.repr b.proof ++ ", \"timestamp\": " ++ Int.repr b.timestamp ++
    ", \"transactions\": " ++ jsonTxList b.transactions ++ "\x7d"

/-- Embedding of the static method `Blockchain.hash`:
`hashlib.sha256(json.dumps(block, sort_keys=True).encode()).hexdigest()`. -/
def hash (block : Block) : String := sha256hex (strBytes (jsonBlock block))

/-! ## Proof of work -/

/-- Embedding of the static method `Blockchain.valid_proof`: the digest of
`f-string(last_proof)(proof)` (decimal representations, no separator) must
start with four `'0'` characters (`guess_hash[:4] == '0000'`). -/
def valid_proof (last_proof proof : Int) : Bool :=
  let guess := strBytes (Int.repr last_proof ++ Int.repr proof)
  let guess_hash := sha256hex guess
  guess_hash.take 4 == "0000"

/-- Embedding of `Blockchain.proof_of_work`: the loop
`proof = 0; while not valid_proof(last_proof, proof): proof += 1; return proof`
returns the least natural number satisfying `valid_proof` and diverges when
none exists, which is exactly `Nat.find` under the termination hypothesis. -/
def proof_of_work (last_proof : Int)
    (h : ∃ p : Nat, valid_proof last_proof p = true) : Nat :=
  Nat.find h

/-! ## The mutable `Blockchain` object -/

/-- The mutable state of a `Blockchain` instance: the pending-transaction
pool, the chain and the registered peer set (`urlparse(address).netloc`
strings; the set is embedded as its insertion list). -/
structure BState where
  current_transactions : List Transaction
  chain : List Block
  nodes : List String
deriving DecidableEq, Repr

/-- Python truthiness of a `previous_hash` value: `0` and `""` are falsy. -/
def truthy : PrevHash → Bool
  | .int n => n != 0
  | .str s => s != ""

/-- The expression `previous_hash or self.hash(self.chain[-1])` inside
`Blockchain.new_block`: the supplied value when it is truthy, otherwise the
hash of the current tip.  `none` embeds the `IndexError` that
`self.chain[-1]` raises on an empty chain (reachable only when the `or`
falls through to the hash). -/
def prev_hash_value (st : BState) (previous_hash : Option PrevHash) : Option PrevHash :=
  let tip_hash : Option PrevHash := (st.chain.getLast?).map (fun lb => .str (hash lb))
  match previous_hash with
  | some p => if truthy p then some p else tip_hash
  | none => tip_hash

/-- Embedding of `Blockchain.new_block` proper: evaluate the block dict
(raising inside `prev_hash_value` aborts the method before any mutation),
then reset the pool and append the block. -/
def new_block (st : BState) (t : Int) (proof : Int) (previous_hash : Option PrevHash) :
    Option (BState × Block) :=
  (prev_hash_value st previous_hash).map (fun ph =>
    let block : Block :=
      { index := (st.chain.length : Int) + 1
        timestamp := t
        transactions := st.current_transactions
        proof := proof
        previous_hash := ph }
    ({ st with current_transactions := [], chain := st.chain ++ [block] }, block))

/-- Embedding of `Blockchain.new_transaction`: appends the transaction dict
to the pool, then returns `self.last_block['index'] + 1`.  The returned
index is `none` when the chain is empty (the `IndexError` of
`self.chain[-1]` propagates to the caller, but the pool mutation has
already happened). -/
def new_transaction (st : BState) (sender recipient : String) (amount : Int) :
    BState × Option Int :=
  let st' := { st with current_transactions :=
                st.current_transactions ++ [⟨sender, recipient, amount⟩] }
  (st', (st'.chain.getLast?).map (fun lb => lb.index + 1))

/-- Embedding of `Blockchain.register_node`: adds the parsed
`urlparse(address).netloc` (taken here as the input) to the peer set. -/
def register_node (st : BState) (netloc : String) : BState :=
  if netloc ∈ st.nodes then st else { st with nodes := st.nodes ++ [netloc] }

/-- Embedding of the property `Blockchain.last_block`, i.e. `self.chain[-1]`;
`none` embeds the `IndexError` on an empty chain. -/
def last_block (st : BState) : Option Block := st.chain.getLast?

/-- Embedding of `Blockchain.__init__`: empty pool, chain and peer set, then
`self.new_block(previous_hash=1, proof=100)`.  (`1` is truthy, so the
genesis append always succeeds; the `Option` records that faithfully.) -/
def init (t : Int) : Option BState :=
  (new_block ⟨[], [], []⟩ t 100 (some (.int 1))).map (fun r => r.1)

/-! ## `valid_chain`

In the source, the loop body of `valid_chain` ends with `return True` at the
same indentation as `last_block = block`, i.e. *inside* the `while` loop, so
the loop body runs at most once; and when the chain has fewer than two
blocks the loop never runs and the function falls off the end, returning
Python `None`.  The comparison on the first pair is
`block['previous_hash'] != self.hash(block)` — the hash of the *current*
block, not of `last_block`.  The embedding mirrors all of this:
`Except.error ()` is the `IndexError` of `chain[0]` on an empty list, and
the `Option Bool` result value is `None` / `False` / `True`. -/

/-- Python `==` between a `previous_hash` JSON value and a digest string: an
integer never equals a string. -/
def pyEqStr : PrevHash → String → Bool
  | .int _, _ => false
  | .str s, t => s == t

/-- The body of `valid_chain`'s `while` loop, entered with
`last_block = chain[0]` and `rest = chain[1:]`.  The misindented
`return True` makes the first iteration the only one, so the remainder of
`rest` is never inspected. -/
def valid_chain_loop (last_block : Block) (rest : List Block) : Option Bool :=
  match rest with
  | [] => none
  | block :: _rest =>
    if pyEqStr block.previous_hash (hash block) = false then some false
    else if valid_proof last_block.proof block.proof = false then some false
    else some true

/-- Embedding of `Blockchain.valid_chain`. -/
def valid_chain (chain : List Block) : Except Unit (Option Bool) :=
  match chain with
  | [] => .error ()
  | c0 :: rest => .ok (valid_chain_loop c0 rest)

/-! ## `resolve_conflicts`

The HTTP fetches `requests.get(f-string https://(node)/chain)` for the peers
in `self.nodes` are passed in as an explicit list, in the set's iteration
order.  `FetchResult.exn` embeds an exception raised by `requests.get`
(unreachable peer); a response with a body of `none` embeds a response whose
`.json()` call or `['length']` / `['chain']` access raises (malformed
response).  None of these exceptions is caught in the source, so they abort
the whole method: `Except.error ()`. -/

/-- The outcome of fetching one peer's `/chain` endpoint. -/
inductive FetchResult where
  | exn : FetchResult
  | resp (status : Nat) (body : Option (Int × List Block)) : FetchResult
deriving DecidableEq, Repr

/-- The `for node in neighbours` loop of `resolve_conflicts`, carrying
`max_length` and `new_chain`.  A peer is consulted only when its status is
`HTTPStatus.OK` (200); its chain becomes the candidate only when its
reported `length` is strictly greater than `max_length` and `valid_chain`
returns Python `True` (not `None` or `False`). -/
def resolve_loop : List FetchResult → Int → Option (List Block) →
    Except Unit (Option (List Block))
  | [], _, new_chain => .ok new_chain
  | .exn :: _, _, _ => .error ()
  | .resp status body :: rest, max_length, new_chain =>
    if status = 200 then
      match body with
      | none => .error ()
      | some (length, chain) =>
        if max_length < length then
          match valid_chain chain with
          | .error _ => .error ()
          | .ok r =>
            if r = some true then resolve_loop rest length (some chain)
            else resolve_loop rest max_length new_chain
        else resolve_loop rest max_length new_chain
    else resolve_loop rest max_length new_chain

/-- Embedding of `Blockchain.resolve_conflicts`: scan the peer responses
starting from `max_length = len(self.chain)` and `new_chain = None`; then
`if new_chain:` (truthiness: `None` and the empty list are falsy) replace
the chain and return `True`, else return `False`. -/
def resolve_conflicts (st : BState) (fetches : List FetchResult) :
    Except Unit (Bool × BState) :=
  match resolve_loop fetches (st.chain.length : Int) none with
  | .error e => .error e
  | .ok none => .ok (false, st)
  | .ok (some c) =>
    if c.isEmpty then .ok (false, st) else .ok (true, { st with chain := c })

/-! ## Spec-side chain validity

The specification describes the intended validator: walk the chain and for
every adjacent pair `(prev, curr)` require `curr.previous_hash ==
Hasher(prev)` and `ProofOfWork.verify(prev.proof, curr.proof)`.  The
following definitions state that property from the spec's words, to be
compared with the `valid_chain` embedded from the source above. -/

/-- The spec's condition on one adjacent pair `(prev, curr)`:
`curr.previous_hash == Hasher(prev)` and the proof of work verifies. -/
def spec_pair_ok (prev curr : Block) : Bool :=
  (curr.previous_hash == PrevHash.str (hash prev)) && valid_proof prev.proof curr.proof

/-- The spec's chain validator: every adjacent pair of the chain satisfies
`spec_pair_ok`; a chain with fewer than two blocks is trivially valid. -/
def spec_valid_chain (chain : List Block) : Bool :=
  (chain.zip chain.tail).all (fun pc => spec_pair_ok pc.1 pc.2)

/-! ## Sequences of operations -/

/-- A sequence of `new_transaction` calls (only the state effect; the
returned indices are dropped, as in `server.py`'s `/transactions/new`). -/
def add_transactions (st : BState) : List Transaction → BState
  | [] => st
  | tx :: rest => add_transactions (new_transaction st tx.sender tx.recipient tx.amount).1 rest

/-- The states a `Blockchain` object can reach: constructed by `__init__`
(at some clock value) and then transformed by any sequence of completed
method calls.  For `new_block` and `resolve_conflicts` only the successful
(non-raising) outcomes produce a new state; when they raise, the object is
left in the state it had before the assignment that never executed. -/
inductive Reachable : BState → Prop where
  | of_init (t : Int) (st : BState) : init t = some st → Reachable st
  | of_new_block (st : BState) (t pf : Int) (ph : Option PrevHash) (st' : BState) (blk : Block) :
      Reachable st → new_block st t pf ph = some (st', blk) → Reachable st'
  | of_new_transaction (st : BState) (sender recipient : String) (amount : Int) :
      Reachable st → Reachable (new_transaction st sender recipient amount).1
  | of_register_node (st : BState) (netloc : String) :
      Reachable st → Reachable (register_node st netloc)
  | of_resolve (st : BState) (fetches : List FetchResult) (b : Bool) (st' : BState) :
      Reachable st → resolve_conflicts st fetches = .ok (b, st') → Reachable st'

/-! ## Concrete fixtures

`genesisB` is the genesis block produced by `__init__` at clock value `0`.
`block2B` extends it exactly as the spec prescribes: its `previous_hash` is
the hash of the genesis block and `35293` is the least proof with
`valid_proof 100 35293` (the genesis proof is `100`). -/

/-- The genesis block of a `Blockchain` constructed at clock value `0`. -/
def genesisB : Block := ⟨1, 0, [], 100, .int 1⟩

/-- A correctly linked successor of `genesisB`: `previous_hash` is the
digest of the genesis block and the proof of work verifies. -/
def block2B : Block := ⟨2, 1, [], 35293, .str (hash genesisB)⟩

/-- A two-block chain that satisfies the spec's validity condition on every
adjacent pair. -/
def chain2 : List Block := [genesisB, block2B]

/-- The state of a freshly constructed `Blockchain` (clock value `0`). -/
def stG : BState := ⟨[], [genesisB], []⟩

/-! ## Sanity anchors for the SHA-256 embedding -/

/-- Sanity anchor for the SHA-256 embedding: the NIST test vector for `"abc"`. -/
theorem sha256hex_abc :
    sha256hex (strBytes "abc") =
      "ba7816bf8f01cfea414140de5dae2223b00361a396177a9cb410ff61f20015ad" := by rfl

/-- Sanity anchor for the SHA-256 embedding: the digest of the empty message. -/
theorem sha256hex_empty :
    sha256hex [] =
      "e3b0c44298fc1c149afbf4c8996fb92427ae41e4649b934ca495991b7852b855" := by rfl

/-! ## Helper lemmas -/

/-- A successful `new_block` appends exactly its returned block to the chain
and empties the pool, and the new block carries the old pool as its
transactions. -/
theorem new_block_eq_some (st : BState) (t pf : Int) (ph : Option PrevHash)
    (st' : BState) (blk : Block) (h : new_block st t pf ph = some (st', blk)) :
    st'.chain = st.chain ++ [blk] ∧ st'.current_transactions = [] ∧
      blk.transactions = st.current_transactions ∧ st'.nodes = st.nodes := by
  unfold new_block at h
  rcases Option.map_eq_some'.mp h with ⟨ph, _, heq⟩
  injection heq with h1 h2
  subst h1; subst h2
  exact ⟨rfl, rfl, rfl, rfl⟩

/-- `register_node` does not touch the chain or the pool. -/
theorem register_node_chain (st : BState) (netloc : String) :
    (register_node st netloc).chain = st.chain ∧
      (register_node st netloc).current_transactions = st.current_transactions := by
  unfold register_node
  split <;> exact ⟨rfl, rfl⟩

/-- A chain accepted by `valid_chain` (Python `True`) is not empty. -/
theorem valid_chain_ok_ne_nil (c : List Block) (h : valid_chain c = .ok (some true)) :
    c.isEmpty = false := by
  cases c with
  | nil => exact absurd h (by simp [valid_chain])
  | cons _ _ => rfl

/-- `add_transactions` appends the given transactions to the pool, in order,
and touches nothing else. -/
theorem add_transactions_eq (txs : List Transaction) (st : BState) :
    add_transactions st txs =
      { st with current_transactions := st.current_transactions ++ txs } := by
  induction txs generalizing st with
  | nil => simp [add_transactions]
  | cons tx rest ih =>
    rw [add_transactions, ih]
    simp [new_transaction]

set_option maxRecDepth 200000 in
/-- The least proof of work continuing from a genesis chain (`last_proof = 0`)
exists; `69732` realises it. -/
theorem pow_ex_zero : ∃ p : Nat, valid_proof 0 p = true := ⟨69732, by rfl⟩

/-! ## The claims -/

/-- C10: immediately after `__init__` (at any clock value `t`), the chain is
exactly one block with `index = 1`, `proof = 100`, empty `transactions` and
the integer `1` (not a digest string) as `previous_hash`, and the
transaction pool and the peer set are empty. -/
theorem init_genesis (t : Int) :
    init t = some ⟨[], [⟨1, t, [], 100, PrevHash.int 1⟩], []⟩ := by rfl

/-- C2: on a chain of exactly one block, `valid_chain` does not return
`True`: the `while` loop never runs and the function falls off the end,
returning Python `None` — contradicting the claim (and the method's own
docstring, which promises `True` for a valid chain). -/
theorem valid_chain_singleton_returns_none (b : Block) :
    valid_chain [b] = .ok none ∧ valid_chain [b] ≠ .ok (some true) :=
  ⟨rfl, by intro hcon; rw [show valid_chain [b] = .ok none from rfl] at hcon; cases hcon⟩

set_option maxRecDepth 200000 in
/-- C1: `valid_chain` is not the pairwise validator the spec describes: on
the concrete two-block chain `chain2`, which satisfies the spec's condition
on every adjacent pair (`spec_valid_chain`), `valid_chain` returns `False`,
because it compares each block's `previous_hash` with the hash of the
*current* block instead of its predecessor; moreover its misindented
`return True` ends the loop after the first pair. -/
theorem valid_chain_rejects_linked_chain :
    spec_valid_chain chain2 = true ∧ valid_chain chain2 = .ok (some false) :=
  ⟨by rfl, by rfl⟩

/-- C4 counterexample: a supplied falsy `previous_hash` (here the integer
`0`) is *not* used; `previous_hash or self.hash(self.chain[-1])` falls
through to the hash of the tip, so the appended block's `previous_hash`
differs from the supplied value. -/
theorem new_block_ignores_falsy_previous_hash :
    (new_block stG 5 7 (some (PrevHash.int 0))).map (fun r => r.2.previous_hash) =
        some (PrevHash.str (hash genesisB))
      ∧ PrevHash.str (hash genesisB) ≠ PrevHash.int 0 :=
  ⟨by rfl, by intro hcon; cases hcon⟩

/-- C4 (amended): a supplied *truthy* `previous_hash` is used exactly; a
supplied falsy one, or none at all, makes the block's `previous_hash` the
hash of the chain's previous tip (computed before the append). -/
theorem new_block_previous_hash_spec (st : BState) (t pf : Int) (p : PrevHash) (lb : Block)
    (hlast : st.chain.getLast? = some lb) :
    (truthy p = true →
      (new_block st t pf (some p)).map (fun r => r.2.previous_hash) = some p)
    ∧ (truthy p = false →
      (new_block st t pf (some p)).map (fun r => r.2.previous_hash) =
        some (PrevHash.str (hash lb)))
    ∧ (new_block st t pf none).map (fun r => r.2.previous_hash) =
        some (PrevHash.str (hash lb)) :=
  ⟨fun hp => by simp [new_block, prev_hash_value, hlast, hp],
   fun hp => by simp [new_block, prev_hash_value, hlast, hp],
   by simp [new_block, prev_hash_value, hlast]⟩

/-- Witness for C4 (amended) at the freshly initialised state with the
truthy supplied value `1` and the tip `genesisB`. -/
theorem new_block_previous_hash_spec_witness :
    (truthy (PrevHash.int 1) = true →
      (new_block stG 2 3 (some (PrevHash.int 1))).map (fun r => r.2.previous_hash) =
        some (PrevHash.int 1))
    ∧ (truthy (PrevHash.int 1) = false →
      (new_block stG 2 3 (some (PrevHash.int 1))).map (fun r => r.2.previous_hash) =
        some (PrevHash.str (hash genesisB)))
    ∧ (new_block stG 2 3 none).map (fun r => r.2.previous_hash) =
        some (PrevHash.str (hash genesisB)) :=
  new_block_previous_hash_spec stG 2 3 (PrevHash.int 1) genesisB rfl

/-- C8: `valid_proof last_proof proof` holds exactly when the lowercase
hexadecimal SHA-256 digest of the concatenated decimal representations of
`last_proof` and `proof` (no separator) begins with the four-character
prefix `"0000"`. -/
theorem valid_proof_iff_digest_prefix (last_proof proof : Int) :
    valid_proof last_proof proof = true ↔
      (sha256hex (strBytes (Int.repr last_proof ++ Int.repr proof))).take 4 = "0000" := by
  simp [valid_proof]

/-- C5: under the hypothesis that some proof verifies (exactly when the
unbounded `while` loop of `proof_of_work` terminates), `proof_of_work`
returns a proof that `valid_proof` accepts, and no smaller natural number
is accepted. -/
theorem proof_of_work_finds_least (last_proof : Int)
    (h : ∃ p : Nat, valid_proof last_proof p = true) :
    valid_proof last_proof (proof_of_work last_proof h) = true
    ∧ ∀ q : Nat, q < proof_of_work last_proof h → valid_proof last_proof q = false := by
  unfold proof_of_work
  refine ⟨Nat.find_spec h, fun q hq => ?_⟩
  simpa using Nat.find_min h hq

/-- Witness for C5 at `last_proof = 0`, whose least verifying proof exists
by `pow_ex_zero`. -/
theorem proof_of_work_finds_least_witness :
    valid_proof 0 (proof_of_work 0 pow_ex_zero) = true :=
  (proof_of_work_finds_least 0 pow_ex_zero).1

/-- C6: starting from a state with an empty pool and a non-empty chain, any
sequence of `new_transaction` calls followed immediately by `new_block`
produces a block whose `transactions` are exactly the added transactions in
insertion order, and leaves the pool empty. -/
theorem new_transactions_then_new_block (st : BState) (txs : List Transaction)
    (t pf : Int) (ph : Option PrevHash) (hpool : st.current_transactions = [])
    (hchain : st.chain ≠ []) :
    (new_block (add_transactions st txs) t pf ph).map
      (fun r => (r.2.transactions, r.1.current_transactions)) = some (txs, []) := by
  obtain ⟨lb, hlb⟩ : ∃ lb, st.chain.getLast? = some lb := by
    have := List.getLast?_isSome.mpr hchain
    exact Option.isSome_iff_exists.mp this
  rw [add_transactions_eq, hpool]
  cases ph with
  | none => simp [new_block, prev_hash_value, hlb]
  | some p =>
    by_cases hp : truthy p = true
    · simp [new_block, prev_hash_value, hlb, hp]
    · simp [new_block, prev_hash_value, hlb, hp]

/-- Witness for C6: one transaction added to the freshly initialised state,
then a block appended with no supplied `previous_hash`. -/
theorem new_transactions_then_new_block_witness :
    (new_block (add_transactions stG [⟨"alice", "bob", 3⟩]) 4 5 none).map
      (fun r => (r.2.transactions, r.1.current_transactions)) =
      some ([⟨"alice", "bob", 3⟩], []) :=
  new_transactions_then_new_block stG [⟨"alice", "bob", 3⟩] 4 5 none rfl
    (List.cons_ne_nil _ _)

/-- C3 counterexample: a fetch failure is *not* recovered: with a single
unreachable peer, the uncaught `requests.get` exception aborts the whole
`resolve_conflicts` call, surfacing as a failure of the overall operation
instead of being skipped. -/
theorem resolve_conflicts_exn_aborts :
    resolve_conflicts stG [FetchResult.exn] = Except.error () := by rfl

/-- C3 (amended): only a non-success HTTP status is skipped (the scan
continues exactly as if that peer were absent); an unreachable peer or a
malformed response raises an uncaught exception that aborts
`resolve_conflicts` as a whole. -/
theorem resolve_conflicts_skips_only_bad_status (st : BState) (status : Nat)
    (body : Option (Int × List Block)) (rest : List FetchResult)
    (hstatus : status ≠ 200) :
    resolve_conflicts st (FetchResult.resp status body :: rest) = resolve_conflicts st rest
    ∧ resolve_conflicts st (FetchResult.exn :: rest) = Except.error ()
    ∧ resolve_conflicts st (FetchResult.resp 200 none :: rest) = Except.error () := by
  refine ⟨?_, by simp [resolve_conflicts, resolve_loop],
    by simp [resolve_conflicts, resolve_loop]⟩
  unfold resolve_conflicts
  rw [show resolve_loop (FetchResult.resp status body :: rest) (st.chain.length : Int) none =
        resolve_loop rest (st.chain.length : Int) none from by
      simp [resolve_loop, hstatus]]

/-- Witness for C3 (amended) at the freshly initialised state, a 404
response with no body, and no further peers. -/
theorem resolve_conflicts_skips_only_bad_status_witness :
    resolve_conflicts stG [FetchResult.resp 404 none] = resolve_conflicts stG []
    ∧ resolve_conflicts stG [FetchResult.exn] = Except.error ()
    ∧ resolve_conflicts stG [FetchResult.resp 200 none] = Except.error () :=
  resolve_conflicts_skips_only_bad_status stG 404 none [] (by decide)

/-- C9: every reachable state of a `Blockchain` object has a non-empty
chain (the genesis block is created by `__init__` and no operation ever
removes it), so `last_block` (`self.chain[-1]`) is total on reachable
states. -/
theorem reachable_chain_nonempty (st : BState) (h : Reachable st) :
    st.chain ≠ [] ∧ (last_block st).isSome = true := by
  have hch : st.chain ≠ [] := by
    induction h with
    | of_init t st0 hinit =>
      have hred : init t = some ⟨[], [⟨1, t, [], 100, PrevHash.int 1⟩], []⟩ := rfl
      rw [hred] at hinit
      injection hinit with h1
      rw [← h1]
      exact List.cons_ne_nil _ _
    | of_new_block st0 t pf ph st' blk _ hnb ih =>
      obtain ⟨hc, -, -, -⟩ := new_block_eq_some st0 t pf ph st' blk hnb
      rw [hc]
      simp
    | of_new_transaction st0 sender recipient amount _ ih =>
      simpa [new_transaction] using ih
    | of_register_node st0 netloc _ ih =>
      rw [(register_node_chain st0 netloc).1]
      exact ih
    | of_resolve st0 fs b st' _ hres ih =>
      unfold resolve_conflicts at hres
      split at hres
      · cases hres
      · injection hres with h1
        injection h1 with _ h2
        rw [← h2]
        exact ih
      · split at hres
        · injection hres with h1
          injection h1 with _ h2
          rw [← h2]
          exact ih
        · rename_i hempty
          injection hres with h1
          injection h1 with _ h2
          rw [← h2]
          simpa using hempty
  exact ⟨hch, List.getLast?_isSome.mpr hch⟩

/-- Witness for C9 at the state produced by `__init__` at clock value `0`. -/
theorem reachable_chain_nonempty_witness :
    stG.chain ≠ [] ∧ (last_block stG).isSome = true :=
  reachable_chain_nonempty stG (Reachable.of_init 0 stG (by rfl))

/-- If the peer scan ends with candidate `some c`, then `c` was the starting
accumulator, or `c` is the chain of an OK response whose reported length
strictly exceeds the starting `max_length` and which `valid_chain`
accepted.  (`max_length` only grows during the scan, so the bound on the
accepted candidate transfers back to the starting value.) -/
theorem resolve_loop_origin (fs : List FetchResult) (M : Int) (acc : Option (List Block))
    (c : List Block) (h : resolve_loop fs M acc = .ok (some c)) :
    acc = some c ∨ ∃ l, FetchResult.resp 200 (some (l, c)) ∈ fs ∧ M < l ∧
      valid_chain c = .ok (some true) := by
  induction fs generalizing M acc with
  | nil =>
    injection h with hacc
    exact Or.inl hacc
  | cons f rest ih =>
    cases f with
    | exn => simp [resolve_loop] at h
    | resp status body =>
      simp only [resolve_loop] at h
      by_cases hs : status = 200
      · rw [if_pos hs] at h
        subst hs
        split at h
        · simp at h
        · rename_i l chain
          by_cases hl : M < l
          · rw [if_pos hl] at h
            split at h
            · simp at h
            · rename_i r hv
              by_cases hr : r = some true
              · rw [if_pos hr] at h
                rcases ih _ _ h with hacc | ⟨l2, hmem, hMl, hvc⟩
                · injection hacc with hcc
                  subst hcc
                  rw [hr] at hv
                  exact Or.inr ⟨l, List.mem_cons_self _ _, hl, hv⟩
                · exact Or.inr ⟨l2, List.mem_cons_of_mem _ hmem, lt_trans hl hMl, hvc⟩
              · rw [if_neg hr] at h
                rcases ih _ _ h with hacc | ⟨l2, hmem, hMl, hvc⟩
                · exact Or.inl hacc
                · exact Or.inr ⟨l2, List.mem_cons_of_mem _ hmem, hMl, hvc⟩
          · rw [if_neg hl] at h
            rcases ih _ _ h with hacc | ⟨l2, hmem, hMl, hvc⟩
            · exact Or.inl hacc
            · exact Or.inr ⟨l2, List.mem_cons_of_mem _ hmem, hMl, hvc⟩
      · rw [if_neg hs] at h
        rcases ih _ _ h with hacc | ⟨l2, hmem, hMl, hvc⟩
        · exact Or.inl hacc
        · exact Or.inr ⟨l2, List.mem_cons_of_mem _ hmem, hMl, hvc⟩

/-- If the scan completes (no exception) and it started with a candidate
already in hand, or some OK response is strictly longer than the starting
`max_length` and passes `valid_chain`, then the scan ends with a
candidate. -/
theorem resolve_loop_progress (fs : List FetchResult) (M : Int) (acc : Option (List Block))
    (r : Option (List Block)) (h : resolve_loop fs M acc = .ok r)
    (hgood : acc ≠ none ∨ ∃ l c, FetchResult.resp 200 (some (l, c)) ∈ fs ∧ M < l ∧
      valid_chain c = .ok (some true)) : r ≠ none := by
  induction fs generalizing M acc with
  | nil =>
    injection h with hacc
    rcases hgood with hacc' | ⟨l, c, hmem, -, -⟩
    · rw [← hacc]; exact hacc'
    · exact absurd hmem (List.not_mem_nil _)
  | cons f rest ih =>
    cases f with
    | exn => simp [resolve_loop] at h
    | resp status body =>
      simp only [resolve_loop] at h
      by_cases hs : status = 200
      · rw [if_pos hs] at h
        subst hs
        split at h
        · simp at h
        · rename_i l chain
          by_cases hl : M < l
          · rw [if_pos hl] at h
            split at h
            · simp at h
            · rename_i rr hv
              by_cases hr : rr = some true
              · rw [if_pos hr] at h
                exact ih _ _ h (Or.inl (by simp))
              · rw [if_neg hr] at h
                refine ih _ _ h ?_
                rcases hgood with hacc | ⟨l2, c2, hmem, hMl, hvc⟩
                · exact Or.inl hacc
                · rcases List.mem_cons.mp hmem with heq | hmem'
                  · injection heq with _ hbody
                    injection hbody with hlc
                    injection hlc with hll hcc
                    subst hll; subst hcc
                    rw [hvc] at hv
                    injection hv with hrr
                    exact absurd hrr.symm hr
                  · exact Or.inr ⟨l2, c2, hmem', hMl, hvc⟩
          · rw [if_neg hl] at h
            refine ih _ _ h ?_
            rcases hgood with hacc | ⟨l2, c2, hmem, hMl, hvc⟩
            · exact Or.inl hacc
            · rcases List.mem_cons.mp hmem with heq | hmem'
              · injection heq with _ hbody
                injection hbody with hlc
                injection hlc with hll hcc
                subst hll
                exact absurd hMl hl
              · exact Or.inr ⟨l2, c2, hmem', hMl, hvc⟩
      · rw [if_neg hs] at h
        refine ih _ _ h ?_
        rcases hgood with hacc | ⟨l2, c2, hmem, hMl, hvc⟩
        · exact Or.inl hacc
        · rcases List.mem_cons.mp hmem with heq | hmem'
          · injection heq with hss _
            exact absurd hss.symm hs
          · exact Or.inr ⟨l2, c2, hmem', hMl, hvc⟩

/-- C7: whenever `resolve_conflicts` completes without an exception, it
returns `false` and leaves the state completely unchanged exactly when no
OK response carries a reported length strictly greater than the local
chain's length together with a chain that `valid_chain` accepts (ties never
replace); and it returns `true` exactly when such a candidate exists, in
which case the local chain is replaced by such a candidate's chain and the
pool and peer set are untouched. -/
theorem resolve_conflicts_replacement_spec (st : BState) (fetches : List FetchResult)
    (b : Bool) (st' : BState) (h : resolve_conflicts st fetches = .ok (b, st')) :
    (b = false → st' = st)
    ∧ (b = true → st'.current_transactions = st.current_transactions ∧ st'.nodes = st.nodes ∧
        ∃ l c, FetchResult.resp 200 (some (l, c)) ∈ fetches ∧ (st.chain.length : Int) < l ∧
          valid_chain c = .ok (some true) ∧ st'.chain = c)
    ∧ (b = true ↔ ∃ l c, FetchResult.resp 200 (some (l, c)) ∈ fetches ∧
        (st.chain.length : Int) < l ∧ valid_chain c = .ok (some true)) := by
  unfold resolve_conflicts at h
  split at h
  · cases h
  · rename_i hr
    injection h with h1
    injection h1 with hb hst
    subst hb; subst hst
    refine ⟨fun _ => rfl, ?_, ?_⟩
    · intro hcon
      exact absurd hcon Bool.false_ne_true
    · constructor
      · intro hcon
        exact absurd hcon Bool.false_ne_true
      · rintro ⟨l, c, hmem, hl, hvc⟩
        exact absurd rfl (resolve_loop_progress fetches _ none none hr
          (Or.inr ⟨l, c, hmem, hl, hvc⟩))
  · rename_i c hr
    rcases resolve_loop_origin fetches _ none c hr with hacc | ⟨l, hmem, hl, hvc⟩
    · cases hacc
    · have hne : c.isEmpty = false := valid_chain_ok_ne_nil c hvc
      split at h
      · rename_i hemp
        rw [hne] at hemp
        exact absurd hemp Bool.false_ne_true
      · injection h with h1
        injection h1 with hb hst
        subst hb; subst hst
        refine ⟨fun hcon => absurd hcon.symm Bool.false_ne_true,
          fun _ => ⟨rfl, rfl, l, c, hmem, hl, hvc, rfl⟩, ?_⟩
        exact ⟨fun _ => ⟨l, c, hmem, hl, hvc⟩, fun _ => rfl⟩

/-- Witness for C7 at the freshly initialised state with no peers: the scan
finds no candidate, returns `false` and leaves the state unchanged. -/
theorem resolve_conflicts_replacement_spec_witness :
    (false = false → stG = stG)
    ∧ (false = true → stG.current_transactions = stG.current_transactions ∧
        stG.nodes = stG.nodes ∧
        ∃ l c, FetchResult.resp 200 (some (l, c)) ∈ ([] : List FetchResult) ∧
          (stG.chain.length : Int) < l ∧ valid_chain c = .ok (some true) ∧ stG.chain = c)
    ∧ (false = true ↔ ∃ l c, FetchResult.resp 200 (some (l, c)) ∈ ([] : List FetchResult) ∧
        (stG.chain.length : Int) < l ∧ valid_chain c = .ok (some true)) :=
  resolve_conflicts_replacement_spec stG [] false stG (by rfl)

end Blockchain
